import Mathlib

/-!
# The word dictionary service of `src/index.js`

A shallow embedding of the five route handlers of `src/index.js`, of the
`validate` helper they share, of the in-memory `dictionary` object they read
and write and of the configuration provider `get`, followed by the theorems
that settle the claims of the specification.

The handlers run on three packages whose sources are not part of the
repository: `express` (routing, the body parser `express.json()` that runs
before every handler, the 500 answer to an exception thrown by a handler),
`@hapi/joi` (validation) and
`string-similarity` (the matcher).  Their behaviour is embedded as far as the
handlers use it, each definition saying which package it stands for.

JavaScript strings are sequences of UTF-16 code units and `length` counts
code units; a string is embedded as a Lean `String` and measured by
`jsLength`.
-/

namespace Dictionary

/-! ## JavaScript values and objects -/

/-- A JavaScript value as far as the handlers observe it: `undefined`, a
string, or any other value (null, boolean, number, array, object, function),
which the program only ever converts to a boolean (`truthy`) or to a string
(`text`). -/
inductive JsValue
  | undefined
  | string (s : String)
  | other (truthy : Bool) (text : String)
  deriving DecidableEq, Repr

/-- ToBoolean: what `if (v)` and `!v` test.  The empty string is falsy. -/
def JsValue.truthy : JsValue → Bool
  | .undefined => false
  | .string s => decide (s ≠ "")
  | .other t _ => t

/-- ToString, as applied by a template literal and by a property access
`object[v]` to its key. -/
def JsValue.toText : JsValue → String
  | .undefined => "undefined"
  | .string s => s
  | .other _ text => text

/-- The own properties of a plain JavaScript object, in creation order. -/
abbrev JsObject := List (String × JsValue)

/-- The properties every plain object inherits from `Object.prototype`: eleven
built-in functions and the accessor `__proto__`, whose getter returns the
prototype object.  All twelve values are truthy and none is a string. -/
def objectPrototype : JsObject :=
  [("constructor", .other true "function Object() \x7b [native code] \x7d"),
   ("__defineGetter__", .other true "function __defineGetter__() \x7b [native code] \x7d"),
   ("__defineSetter__", .other true "function __defineSetter__() \x7b [native code] \x7d"),
   ("hasOwnProperty", .other true "function hasOwnProperty() \x7b [native code] \x7d"),
   ("__lookupGetter__", .other true "function __lookupGetter__() \x7b [native code] \x7d"),
   ("__lookupSetter__", .other true "function __lookupSetter__() \x7b [native code] \x7d"),
   ("isPrototypeOf", .other true "function isPrototypeOf() \x7b [native code] \x7d"),
   ("propertyIsEnumerable", .other true "function propertyIsEnumerable() \x7b [native code] \x7d"),
   ("toString", .other true "function toString() \x7b [native code] \x7d"),
   ("valueOf", .other true "function valueOf() \x7b [native code] \x7d"),
   ("__proto__", .other true "[object Object]"),
   ("toLocaleString", .other true "function toLocaleString() \x7b [native code] \x7d")]

/-- Property read `object[key]`: the own property when there is one, else the
property inherited from `Object.prototype`, else `undefined`. -/
def JsObject.get (object : JsObject) (key : String) : JsValue :=
  match object.lookup key with
  | some v => v
  | none => (objectPrototype.lookup key).getD .undefined

/-- Replace the value of the first property named `key`, or append the
property when there is none. -/
def JsObject.put : JsObject → String → JsValue → JsObject
  | [], key, v => [(key, v)]
  | (k, w) :: rest, key, v =>
    if k = key then (k, v) :: rest else (k, w) :: JsObject.put rest key v

/-- Property write `object[key] = v`.  An own property keeps its place and
takes the new value; a new key is appended.  Writing `__proto__` on an object
that has no own property of that name calls the inherited setter, which
ignores a value that is not an object: the handlers only ever write a string
or `undefined`. -/
def JsObject.set (object : JsObject) (key : String) (v : JsValue) : JsObject :=
  if (object.lookup key).isSome then object.put key v
  else if key = "__proto__" then object
  else object.put key v

/-- The statement `delete object[key]`: the own property named `key` is
removed; inherited properties are untouched. -/
def JsObject.delete (object : JsObject) (key : String) : JsObject :=
  object.filter (fun p => p.1 != key)

/-- The array index a property key denotes, if any: a canonical decimal
numeral (no leading zero) below `2^32 - 1`. -/
def arrayIndex (key : String) : Option Nat :=
  let cs := key.toList
  if cs ≠ [] ∧ cs.all Char.isDigit = true ∧ (cs.head? ≠ some '0' ∨ cs.length = 1) then
    let n := cs.foldl (fun acc c => 10 * acc + (c.toNat - 48)) 0
    if n < 2 ^ 32 - 1 then some n else none
  else none

/-- `Object.keys(object)`: the array-index keys in ascending numeric order,
then the other keys in creation order. -/
def JsObject.keys (object : JsObject) : List String :=
  let ks := object.map Prod.fst
  let indexed := ks.filterMap (fun k => (arrayIndex k).map (fun n => (n, k)))
  (List.insertionSort (fun a b => a.1 ≤ b.1) indexed).map Prod.snd
    ++ ks.filter (fun k => (arrayIndex k).isNone)

/-- The UTF-16 code units of a string. -/
def utf16 (s : String) : List Nat :=
  s.toList.flatMap (fun c =>
    if c.toNat < 0x10000 then [c.toNat]
    else [0xD800 + (c.toNat - 0x10000) / 0x400, 0xDC00 + (c.toNat - 0x10000) % 0x400])

/-- The `length` property of a string: its number of UTF-16 code units. -/
def jsLength (s : String) : Nat := (utf16 s).length

/-! ## Validation: `@hapi/joi` and `validate` -/

/-- Presence flag of a joi schema. -/
inductive Presence
  | optional
  | required
  deriving DecidableEq, Repr

/-- A joi string schema with the rules the program uses.  Schemas are
immutable values: every rule method returns a new schema. -/
structure StringSchema where
  minLength : Option Nat
  maxLength : Option Nat
  presence : Presence
  deriving DecidableEq, Repr

/-- The schema `joi.string()`: any non-empty string, optional. -/
def joi.string : StringSchema := ⟨none, none, .optional⟩

/-- The rule `.min(limit)`. -/
def StringSchema.min (schema : StringSchema) (limit : Nat) : StringSchema :=
  { schema with minLength := some limit }

/-- The rule `.max(limit)`. -/
def StringSchema.max (schema : StringSchema) (limit : Nat) : StringSchema :=
  { schema with maxLength := some limit }

/-- The rule `.required()`: a copy of the schema with presence required; the
schema it is called on is left as it was. -/
def StringSchema.required (schema : StringSchema) : StringSchema :=
  { schema with presence := .required }

/-- The label joi puts in front of a message: the key between double quotes. -/
def label (key : String) : String := "\"" ++ key ++ "\""

/-- Validation of one value against a string schema, giving the message of the
first rule that fails: presence, type, emptiness, `min`, `max`, in this order. -/
def StringSchema.check (schema : StringSchema) (key : String) : JsValue → Option String
  | .undefined =>
    if schema.presence = .required then some (label key ++ " is required") else none
  | .other _ _ => some (label key ++ " must be a string")
  | .string s =>
    if s = "" then some (label key ++ " is not allowed to be empty")
    else
      match schema.minLength.filter (fun limit => jsLength s < limit) with
      | some limit =>
        some (label key ++ " length must be at least " ++ toString limit ++ " characters long")
      | none =>
        match schema.maxLength.filter (fun limit => limit < jsLength s) with
        | some limit =>
          some (label key ++ " length must be less than or equal to " ++ toString limit
            ++ " characters long")
        | none => none

/-- The error of a failed validation: the messages of its `details`. -/
structure ValidationError where
  details : List String
  deriving DecidableEq, Repr

/-- The result of `schema.validate(value)`: `error` is absent on success. -/
structure ValidationResult where
  error : Option ValidationError
  deriving DecidableEq, Repr

/-- The call `joi.object(schema).validate(object)` with joi's default options
(`abortEarly`, unknown keys refused): the schema keys are checked in the order
they were declared, then the keys of the object that the schema does not
declare, in the order of `Object.keys`; the first failure is the only detail
of the error. -/
def joi.objectValidate (schema : List (String × StringSchema)) (object : JsObject) :
    ValidationResult :=
  match schema.findSome? (fun entry => entry.2.check entry.1 (object.get entry.1)) with
  | some message => ⟨some ⟨[message]⟩⟩
  | none =>
    match object.keys.find? (fun k => (schema.lookup k).isNone) with
    | some k => ⟨some ⟨[label k ++ " is not allowed"]⟩⟩
    | none => ⟨none⟩

/-- The function `validate(object, fields)` of `src/index.js`.  The `forEach`
callback calls `required()` on the schema of each listed field and drops the
schema that call returns, so the object is validated against the schemas as
they were built: both fields optional. -/
def validate (object : JsObject) (fields : List String) : ValidationResult :=
  let schema : List (String × StringSchema) :=
    [("name", (joi.string.min 2).max 30),
     ("description", (joi.string.min 3).max 200)]
  let _dropped : List StringSchema :=
    (fields.filterMap (fun field => schema.lookup field)).map StringSchema.required
  joi.objectValidate schema object

/-! ## The matcher: `string-similarity` -/

/-- The characters the regular expression class `\s` matches, as code units. -/
def isWhitespace (u : Nat) : Bool :=
  u = 0x09 ∨ u = 0x0A ∨ u = 0x0B ∨ u = 0x0C ∨ u = 0x0D ∨ u = 0x20 ∨ u = 0xA0 ∨ u = 0x1680
    ∨ (0x2000 ≤ u ∧ u ≤ 0x200A) ∨ u = 0x2028 ∨ u = 0x2029 ∨ u = 0x202F ∨ u = 0x205F
    ∨ u = 0x3000 ∨ u = 0xFEFF

/-- The call `s.replace(/\s+/g, '')` on the code units of `s`. -/
def stripWhitespace (s : String) : List Nat := (utf16 s).filter (fun u => !isWhitespace u)

/-- The substrings `s.substring(i, i + 2)` for `i` from `0` to `s.length - 2`. -/
def bigrams (s : List Nat) : List (Nat × Nat) := s.zip s.tail

/-- A JavaScript `Map` from bigrams to counts, as its entries. -/
abbrev BigramMap := List ((Nat × Nat) × Nat)

/-- The count under `bigram`, `0` when the map has no such key. -/
def BigramMap.count (m : BigramMap) (bigram : Nat × Nat) : Nat := (m.lookup bigram).getD 0

/-- The call `m.set(bigram, count)`. -/
def BigramMap.set : BigramMap → Nat × Nat → Nat → BigramMap
  | [], bigram, count => [(bigram, count)]
  | (b, c) :: rest, bigram, count =>
    if b = bigram then (b, count) :: rest else (b, c) :: BigramMap.set rest bigram count

/-- The first loop of `compareTwoStrings`: the number of occurrences of each
bigram of `first`. -/
def firstBigrams (first : List Nat) : BigramMap :=
  (bigrams first).foldl (fun m bigram => m.set bigram (m.count bigram + 1)) []

/-- The second loop of `compareTwoStrings`: each bigram of `second` that still
has a positive count uses one occurrence up and adds one to the intersection. -/
def intersect (m : BigramMap) (second : List (Nat × Nat)) : BigramMap × Nat :=
  second.foldl
    (fun state bigram =>
      let count := state.1.count bigram
      if 0 < count then (state.1.set bigram (count - 1), state.2 + 1) else state)
    (m, 0)

/-- The function `compareTwoStrings(first, second)` of `string-similarity`:
the Dice coefficient of the bigrams of the two strings, whitespace removed.
The quotient is a ratio of two small natural numbers; it is kept exact. -/
def compareTwoStrings (first second : String) : ℚ :=
  let first := stripWhitespace first
  let second := stripWhitespace second
  if first = second then 1
  else if first.length < 2 ∨ second.length < 2 then 0
  else
    let intersectionSize := (intersect (firstBigrams first) (bigrams second)).2
    (2 * intersectionSize : ℚ) / ((first.length + second.length - 2 : Nat) : ℚ)

/-- One element of `ratings`: a target string and its rating. -/
structure Rating where
  target : String
  rating : ℚ
  deriving DecidableEq, Repr

/-- The loop of `findBestMatch`: each target is rated and pushed on `ratings`,
and `bestMatchIndex` moves to it when its rating is strictly greater than the
rating at `bestMatchIndex`. -/
def findBestMatch.loop (mainString : String) : List String → List Rating → Nat → List Rating × Nat
  | [], ratings, bestMatchIndex => (ratings, bestMatchIndex)
  | currentTargetString :: rest, ratings, bestMatchIndex =>
    let currentRating := compareTwoStrings mainString currentTargetString
    let i := ratings.length
    let ratings := ratings ++ [⟨currentTargetString, currentRating⟩]
    let bestMatchIndex :=
      match ratings[bestMatchIndex]? with
      | some best => if best.rating < currentRating then i else bestMatchIndex
      | none => bestMatchIndex
    findBestMatch.loop mainString rest ratings bestMatchIndex

/-- What `findBestMatch` returns. -/
structure BestMatch where
  ratings : List Rating
  bestMatch : Rating
  bestMatchIndex : Nat
  deriving DecidableEq, Repr

/-- The function `findBestMatch(mainString, targetStrings)` of
`string-similarity`.  It throws when `mainString` is not a string or when
`targetStrings` is empty (`areArgsValid`); `Object.keys` only yields strings. -/
def findBestMatch (mainString : JsValue) (targetStrings : List String) : Except String BestMatch :=
  match mainString with
  | .string main =>
    if targetStrings.isEmpty then
      .error "Bad arguments: First argument should be a string, second should be an array of strings"
    else
      let (ratings, bestMatchIndex) := findBestMatch.loop main targetStrings [] 0
      match ratings[bestMatchIndex]? with
      | some bestMatch => .ok ⟨ratings, bestMatch, bestMatchIndex⟩
      | none => .error "bestMatch is undefined"
  | _ =>
    .error "Bad arguments: First argument should be a string, second should be an array of strings"

/-! ## The HTTP endpoint layer -/

/-- The body of a response: what a handler passes to `response.send`, or the
HTML page that the default error handler of express sends for an error that
no handler caught.  What the page shows of the error (its stack, or only the
status text in production) is not modelled. -/
inductive Body
  | empty
  | text (message : String)
  | entry (name : JsValue) (description : JsValue)
  | bestMatch (target : String) (rating : ℚ)
  | errorPage (error : String)
  deriving DecidableEq, Repr

/-- The response of a request: status code and body. -/
structure Response where
  status : Nat
  body : Body
  deriving DecidableEq, Repr

/-- The three objects express hands to a handler: the route parameters, the
parsed query string and the parsed JSON body. -/
structure Request where
  params : JsObject
  query : JsObject
  body : JsObject
  deriving DecidableEq, Repr

/-- The object `dictionary` as the program creates it. -/
def dictionary : JsObject :=
  [("knight", .string "a man in armor"),
   ("knife", .string "a piece of metal"),
   ("knee", .string "ur knee")]

/-- The statement `return response.status(400).send(validation.error.details[0].message)`.
Reading `message` of a missing detail would throw, which express answers
with 500. -/
def badRequest (error : ValidationError) : Response :=
  match error.details[0]? with
  | some message => ⟨400, .text message⟩
  | none => ⟨500, .errorPage "TypeError: Cannot read property 'message' of undefined"⟩

/-- Handler of `GET /api/word/:name` (Lookup exact). -/
def getWordByName (dictionary : JsObject) (request : Request) : JsObject × Response :=
  let validation := validate request.params ["name"]
  match validation.error with
  | some error => (dictionary, badRequest error)
  | none =>
    let name := request.params.get "name"
    let result := dictionary.get name.toText
    if !result.truthy then
      (dictionary, ⟨404, .text ("word '" ++ name.toText ++ "' not found")⟩)
    else
      (dictionary, ⟨200, .entry name result⟩)

/-- Handler of `POST /api/word` (Create). -/
def postWord (dictionary : JsObject) (request : Request) : JsObject × Response :=
  let validation := validate request.body ["name", "description"]
  match validation.error with
  | some error => (dictionary, badRequest error)
  | none =>
    let name := request.body.get "name"
    if (dictionary.get name.toText).truthy then
      (dictionary, ⟨409, .text ("word '" ++ name.toText ++ "' already exist")⟩)
    else
      let dictionary := dictionary.set name.toText (request.body.get "description")
      (dictionary, ⟨201, .entry name (dictionary.get name.toText)⟩)

/-- Handler of `PUT /api/word/:name` (Update). -/
def putWord (dictionary : JsObject) (request : Request) : JsObject × Response :=
  let validation := validate request.body ["name", "description"]
  match validation.error with
  | some error => (dictionary, badRequest error)
  | none =>
    let name := request.body.get "name"
    (dictionary, ⟨200, .entry name (dictionary.get name.toText)⟩)

/-- Handler of `GET /api/word` (Fuzzy lookup).  An exception thrown by
`findBestMatch` leaves the handler; express answers it with status 500. -/
def getWord (dictionary : JsObject) (request : Request) : JsObject × Response :=
  let validation := validate request.query ["name"]
  match validation.error with
  | some error => (dictionary, badRequest error)
  | none =>
    match findBestMatch (request.query.get "name") dictionary.keys with
    | .error message => (dictionary, ⟨500, .errorPage message⟩)
    | .ok result => (dictionary, ⟨200, .bestMatch result.bestMatch.target result.bestMatch.rating⟩)

/-- Handler of `DELETE /api/word/:name` (Delete). -/
def deleteWord (dictionary : JsObject) (request : Request) : JsObject × Response :=
  let validation := validate request.params ["name"]
  match validation.error with
  | some error => (dictionary, badRequest error)
  | none =>
    let name := request.params.get "name"
    if (dictionary.get name.toText).truthy then
      (dictionary, ⟨404, .text ("word '" ++ name.toText ++ "' not found")⟩)
    else
      (dictionary.delete name.toText, ⟨200, .empty⟩)

/-- The five operations of the service. -/
inductive Operation
  | lookup
  | create
  | update
  | fuzzy
  | delete
  deriving DecidableEq, Repr

/-- The handler express routes each operation to. -/
def handle : Operation → JsObject → Request → JsObject × Response
  | .lookup => getWordByName
  | .create => postWord
  | .update => putWord
  | .fuzzy => getWord
  | .delete => deleteWord

/-- The number of bytes of a string in UTF-8. -/
def utf8Length (s : String) : Nat :=
  (s.toList.map (fun c =>
    if c.toNat < 0x80 then 1 else if c.toNat < 0x800 then 2
    else if c.toNat < 0x10000 then 3 else 4)).sum

/-- The limit of `express.json()` with its default options: `100kb`, in
bytes. -/
def jsonLimit : Nat := 100 * 1024

/-- What the body parser `express.json()` makes of the body of a request, its
size apart: a charset or content encoding it does not support, a text that is
not JSON, or the object it sets as `request.body` (the empty object for a
request without a JSON body).  An array body, which joi refuses as a whole,
is not represented. -/
inductive Parse
  | unsupported
  | malformed
  | object (body : JsObject)
  deriving DecidableEq, Repr

/-- A request as the HTTP server hands it to the application: the number of
bytes of its JSON body, what the body parser makes of that body, and the
route parameters and query that express builds. -/
structure Incoming where
  bodyBytes : Nat
  parse : Parse
  params : JsObject
  query : JsObject
  deriving DecidableEq, Repr

/-- The application `express().use(express.json())` with its five routes.  The
body parser runs before every handler and hands an error to express, which
answers it without calling the handler: 415 for an unsupported charset or
encoding, 413 for a body of more than `jsonLimit` bytes, 400 for a body that
is not JSON. -/
def serve (op : Operation) (dictionary : JsObject) (incoming : Incoming) :
    JsObject × Response :=
  match incoming.parse with
  | .unsupported => (dictionary, ⟨415, .errorPage "UnsupportedMediaTypeError"⟩)
  | .malformed =>
    if jsonLimit < incoming.bodyBytes then
      (dictionary, ⟨413, .errorPage "PayloadTooLargeError: request entity too large"⟩)
    else (dictionary, ⟨400, .errorPage "SyntaxError"⟩)
  | .object body =>
    if jsonLimit < incoming.bodyBytes then
      (dictionary, ⟨413, .errorPage "PayloadTooLargeError: request entity too large"⟩)
    else handle op dictionary ⟨incoming.params, incoming.query, body⟩

/-- A request sent with the JSON text `rawBody` in UTF-8 as its body, where
`request.body` is the object the text parses to. -/
def jsonRequest (rawBody : String) (request : Request) : Incoming :=
  ⟨utf8Length rawBody, .object request.body, request.params, request.query⟩

/-- The JSON text `\x7b"name":"...","description":"..."\x7d` of a body whose two
strings need no escape. -/
def rawEntry (name description : String) : String :=
  "\x7b\"name\":\"" ++ name ++ "\",\"description\":\"" ++ description ++ "\"\x7d"

/-- A description of 34200 euro signs, each of three bytes in UTF-8. -/
def longDescription : String := String.mk (List.replicate 34200 '€')

/-- A request whose route parameters are `name`, with no query and no body:
what express builds for `GET` and `DELETE /api/word/:name`. -/
def byName (name : String) : Request :=
  ⟨[("name", .string name)], [], []⟩

/-- A request whose query string is `name=...`. -/
def byQuery (name : String) : Request :=
  ⟨[], [("name", .string name)], []⟩

/-- A request whose JSON body is `{name, description}`, sent to the path
`/api/word/:name` when `param` is given and to `/api/word` otherwise. -/
def withEntry (param : Option String) (name description : String) : Request :=
  ⟨(param.map (fun p => [("name", JsValue.string p)])).getD [],
   [],
   [("name", .string name), ("description", .string description)]⟩

/-- The store after a sequence of requests, each handled to completion before
the next. -/
def run (store : JsObject) : List (Operation × Request) → JsObject
  | [] => store
  | (op, request) :: rest => run (handle op store request).1 rest

/-! ## The configuration provider -/

/-- A value of the configuration: what `JSON.parse` yields for the file and
what the literal `defaults` holds. -/
inductive ConfigValue
  | undefined
  | null
  | boolean (b : Bool)
  | number (n : Nat)
  | string (s : String)
  | object (fields : List (String × ConfigValue))

/-- ToBoolean, as `||` tests its left operand. -/
def ConfigValue.truthy : ConfigValue → Bool
  | .undefined => false
  | .null => false
  | .boolean b => b
  | .number n => decide (n ≠ 0)
  | .string s => decide (s ≠ "")
  | .object _ => true

/-- Property read `result[current]` for the setting names the program uses,
none of which is a built-in property: reading a property of `undefined` or
`null` throws a `TypeError`, an object gives its own property or `undefined`,
and any other value gives `undefined`. -/
def ConfigValue.index (result : ConfigValue) (current : String) : Except String ConfigValue :=
  match result with
  | .undefined => .error ("TypeError: Cannot read property '" ++ current ++ "' of undefined")
  | .null => .error ("TypeError: Cannot read property '" ++ current ++ "' of null")
  | .object fields => .ok ((fields.lookup current).getD .undefined)
  | _ => .ok .undefined

/-- The constant `PREFIX`. -/
def PREFIX : String := "MY_APP_"

/-- The object `defaults`. -/
def defaults : ConfigValue :=
  .object
    [("address", .string "localhost"),
     ("port", .number 3000),
     ("database",
       .object
         [("address", .string "localhost"),
          ("port", .number 27017),
          ("name", .string "dictionary")])]

/-- The call `name.replace('.', '_')` on the characters of `name`: the first
dot becomes an underscore. -/
def replaceDot : List Char → List Char
  | [] => []
  | c :: cs => if c = '.' then '_' :: cs else c :: replaceDot cs

/-- The call `name.split('.')` on the characters of `name`. -/
def splitDot : List Char → List (List Char)
  | [] => [[]]
  | c :: cs =>
    if c = '.' then [] :: splitDot cs
    else
      match splitDot cs with
      | first :: rest => (c :: first) :: rest
      | [] => [[c]]

/-- The function `processSplited(object)`: `splited.reduce` reads one property
after the other, and the first read that throws ends the reduction. -/
def processSplited (splited : List String) (object : ConfigValue) : Except String ConfigValue :=
  splited.foldlM (fun result current => result.index current) object

/-- The function `get(name)` for a given `configuration` and environment
`process.env`, whose values are strings:
`processSplited(configuration) || process.env[realName] || processSplited(defaults)`. -/
def get (configuration : ConfigValue) (env : List (String × String)) (name : String) :
    Except String ConfigValue :=
  let realName := PREFIX ++ String.mk (replaceDot name.toList)
  let splited := (splitDot name.toList).map String.mk
  match processSplited splited configuration with
  | .error e => .error e
  | .ok fromFile =>
    if fromFile.truthy then .ok fromFile
    else
      let fromEnv := ((env.lookup realName).map ConfigValue.string).getD .undefined
      if fromEnv.truthy then .ok fromEnv else processSplited splited defaults

/-! ## Definitions used by the statements and proofs -/

/-- A message names a field when it starts with the field's label. -/
def namesField (field message : String) : Prop := ∃ rest, message = label field ++ rest

/-- The response to a request refused for `field`: status 400, a message that
names the field, and the store as it was. -/
def rejectedFor (field : String) (store : JsObject) (result : JsObject × Response) : Prop :=
  ∃ message, result = (store, ⟨400, .text message⟩) ∧ namesField field message

/-- The sum of the counts of a bigram map. -/
def BigramMap.total (m : BigramMap) : Nat := (m.map Prod.snd).sum

/-- The element `findBestMatch` pushes on `ratings` for a target. -/
def rate (mainString target : String) : Rating := ⟨target, compareTwoStrings mainString target⟩

/-- A value that passes a string schema with bounds `lo` and `hi` and optional
presence: `undefined`, or a string whose length is within the bounds. -/
def accepted (lo hi : Nat) (v : JsValue) : Prop :=
  v = .undefined ∨ ∃ s, v = .string s ∧ lo ≤ jsLength s ∧ jsLength s ≤ hi

/-- Every entry of the store has a key of length 2..30 and a value that is
`undefined` or a string of length 3..200. -/
def entriesAccepted (store : JsObject) : Prop :=
  ∀ p ∈ store, (2 ≤ jsLength p.1 ∧ jsLength p.1 ≤ 30) ∧ accepted 3 200 p.2

/-! ## Lemmas -/

theorem validate_eq (object : JsObject) (fields : List String) :
    validate object fields =
      joi.objectValidate
        [("name", ⟨some 2, some 30, .optional⟩), ("description", ⟨some 3, some 200, .optional⟩)]
        object := rfl

theorem jsLength_empty : jsLength "" = 0 := by decide

theorem check_length_fails (schema : StringSchema) (key s : String) (lo hi : Nat)
    (hmin : schema.minLength = some lo) (hmax : schema.maxLength = some hi)
    (h : jsLength s < lo ∨ hi < jsLength s) :
    ∃ message, schema.check key (.string s) = some message ∧ namesField key message := by
  unfold StringSchema.check
  by_cases hs : s = ""
  · exact ⟨label key ++ " is not allowed to be empty", by simp [hs],
      " is not allowed to be empty", rfl⟩
  · simp only [hs, if_false, hmin, hmax]
    by_cases h1 : jsLength s < lo
    · simp [Option.filter, h1, namesField, String.append_assoc]
    · have h2 : hi < jsLength s := by omega
      simp [Option.filter, h1, h2, namesField, String.append_assoc]

theorem check_ok (schema : StringSchema) (key s : String) (lo hi : Nat)
    (hmin : schema.minLength = some lo) (hmax : schema.maxLength = some hi)
    (h0 : 0 < lo) (h : lo ≤ jsLength s ∧ jsLength s ≤ hi) :
    schema.check key (.string s) = none := by
  have hs : s ≠ "" := by
    rintro rfl
    rw [jsLength_empty] at h
    omega
  have h1 : ¬ jsLength s < lo := by omega
  have h2 : ¬ hi < jsLength s := by omega
  simp [StringSchema.check, hs, hmin, hmax, Option.filter, h1, h2]

theorem validate_error_details (object : JsObject) (fields : List String) (e : ValidationError)
    (h : (validate object fields).error = some e) : ∃ message, e.details = [message] := by
  rw [validate_eq] at h
  unfold joi.objectValidate at h
  split at h
  · simp at h; exact ⟨_, by rw [← h]⟩
  · split at h
    · simp at h; exact ⟨_, by rw [← h]⟩
    · simp at h

theorem validate_name_fails (object : JsObject) (fields : List String) (s : String)
    (hget : object.get "name" = .string s) (h : jsLength s < 2 ∨ 30 < jsLength s) :
    ∃ message, (validate object fields).error = some ⟨[message]⟩ ∧ namesField "name" message := by
  obtain ⟨message, hm, hn⟩ :=
    check_length_fails ⟨some 2, some 30, .optional⟩ "name" s 2 30 rfl rfl h
  refine ⟨message, ?_, hn⟩
  simp [validate_eq, joi.objectValidate, List.findSome?, hget, hm]

theorem validate_description_fails (object : JsObject) (fields : List String) (d : String)
    (hget : object.get "description" = .string d) (h : jsLength d < 3 ∨ 200 < jsLength d) :
    ∃ message, (validate object fields).error = some ⟨[message]⟩ := by
  obtain ⟨message, hm, -⟩ :=
    check_length_fails ⟨some 3, some 200, .optional⟩ "description" d 3 200 rfl rfl h
  rw [validate_eq]
  unfold joi.objectValidate
  simp only [List.findSome?, hget, hm]
  cases hc : StringSchema.check ⟨some 2, some 30, .optional⟩ "name" (object.get "name") with
  | some m => exact ⟨m, rfl⟩
  | none => exact ⟨message, rfl⟩

theorem keys_name_only (a : JsValue) : JsObject.keys [("name", a)] = ["name"] := by
  have h1 : arrayIndex "name" = none := by decide
  simp [JsObject.keys, h1]

theorem keys_name_description (a b : JsValue) :
    JsObject.keys [("name", a), ("description", b)] = ["name", "description"] := by
  have h1 : arrayIndex "name" = none := by decide
  have h2 : arrayIndex "description" = none := by decide
  simp [JsObject.keys, h1, h2]

theorem validate_entry_ok (fields : List String) (name description : String)
    (hn : 2 ≤ jsLength name ∧ jsLength name ≤ 30)
    (hd : 3 ≤ jsLength description ∧ jsLength description ≤ 200) :
    (validate [("name", .string name), ("description", .string description)] fields).error
      = none := by
  have h1 := check_ok ⟨some 2, some 30, .optional⟩ "name" name 2 30 rfl rfl (by decide) hn
  have h2 := check_ok ⟨some 3, some 200, .optional⟩ "description" description 3 200 rfl rfl
    (by decide) hd
  have g1 : JsObject.get [("name", .string name), ("description", .string description)] "name"
      = .string name := by simp [JsObject.get, List.lookup]
  have g2 : JsObject.get [("name", .string name), ("description", .string description)]
      "description" = .string description := by
    have : ("description" == "name") = false := by decide
    simp [JsObject.get, List.lookup, this]
  simp [validate_eq, joi.objectValidate, List.findSome?, g1, g2, h1, h2, List.lookup,
    keys_name_description]

theorem badRequest_single (message : String) : badRequest ⟨[message]⟩ = ⟨400, .text message⟩ := rfl

theorem lookup_put (object : JsObject) (key : String) (v : JsValue) :
    (object.put key v).lookup key = some v := by
  induction object with
  | nil => simp [JsObject.put, List.lookup]
  | cons p rest ih =>
    obtain ⟨k, w⟩ := p
    by_cases h : k = key
    · subst h; simp [JsObject.put, List.lookup]
    · have h2 : (key == k) = false := by simpa using fun e => h e.symm
      simp [JsObject.put, h, List.lookup, h2, ih]

theorem get_set_of_falsy (object : JsObject) (key : String) (v : JsValue)
    (h : (object.get key).truthy = false) : (object.set key v).get key = v := by
  unfold JsObject.set
  cases hl : object.lookup key with
  | some w => simp [JsObject.get, lookup_put]
  | none =>
    have hk : key ≠ "__proto__" := by
      rintro rfl
      simp only [JsObject.get, hl] at h
      revert h
      decide
    simp [hk, JsObject.get, lookup_put]

theorem getWordByName_of_error (store : JsObject) (request : Request) (e : ValidationError)
    (h : (validate request.params ["name"]).error = some e) :
    getWordByName store request = (store, badRequest e) := by
  simp [getWordByName, h]

theorem deleteWord_of_error (store : JsObject) (request : Request) (e : ValidationError)
    (h : (validate request.params ["name"]).error = some e) :
    deleteWord store request = (store, badRequest e) := by
  simp [deleteWord, h]

theorem getWord_of_error (store : JsObject) (request : Request) (e : ValidationError)
    (h : (validate request.query ["name"]).error = some e) :
    getWord store request = (store, badRequest e) := by
  simp [getWord, h]

theorem postWord_of_error (store : JsObject) (request : Request) (e : ValidationError)
    (h : (validate request.body ["name", "description"]).error = some e) :
    postWord store request = (store, badRequest e) := by
  simp [postWord, h]

theorem putWord_of_error (store : JsObject) (request : Request) (e : ValidationError)
    (h : (validate request.body ["name", "description"]).error = some e) :
    putWord store request = (store, badRequest e) := by
  simp [putWord, h]

theorem badRequest_status (object : JsObject) (fields : List String) (e : ValidationError)
    (h : (validate object fields).error = some e) : (badRequest e).status = 400 := by
  obtain ⟨message, hm⟩ := validate_error_details object fields e h
  obtain ⟨details⟩ := e
  subst hm
  rfl

theorem BigramMap.total_set (m : BigramMap) (bigram : Nat × Nat) (count : Nat) :
    (m.set bigram count).total + m.count bigram = m.total + count := by
  induction m with
  | nil => simp [BigramMap.set, BigramMap.total, BigramMap.count, List.lookup]
  | cons p rest ih =>
    obtain ⟨b, c⟩ := p
    by_cases h : b = bigram
    · subst h
      simp [BigramMap.set, BigramMap.total, BigramMap.count, List.lookup]
      omega
    · have h2 : (bigram == b) = false := by simpa using fun e => h e.symm
      simp only [BigramMap.set, h, if_false, BigramMap.total, BigramMap.count, List.lookup, h2,
        List.map_cons, List.sum_cons] at ih ⊢
      omega

theorem total_firstBigrams_aux (l : List (Nat × Nat)) (m : BigramMap) :
    BigramMap.total (l.foldl (fun m bigram => m.set bigram (m.count bigram + 1)) m)
      = m.total + l.length := by
  induction l generalizing m with
  | nil => simp
  | cons b rest ih =>
    rw [List.foldl_cons, ih]
    have := BigramMap.total_set m b (m.count b + 1)
    simp only [List.length_cons]
    omega

theorem total_firstBigrams (first : List Nat) :
    (firstBigrams first).total = (bigrams first).length := by
  unfold firstBigrams
  rw [total_firstBigrams_aux]
  simp [BigramMap.total]

theorem intersect_aux (l : List (Nat × Nat)) (state : BigramMap × Nat) :
    let r := l.foldl
      (fun (state : BigramMap × Nat) bigram =>
        let count := state.1.count bigram
        if 0 < count then (state.1.set bigram (count - 1), state.2 + 1) else state)
      state
    r.2 + r.1.total = state.2 + state.1.total ∧ r.2 ≤ state.2 + l.length := by
  induction l generalizing state with
  | nil => simp
  | cons b rest ih =>
    simp only [List.foldl_cons, List.length_cons]
    by_cases h : 0 < state.1.count b
    · simp only [h, if_true]
      have step := BigramMap.total_set state.1 b (state.1.count b - 1)
      have := ih (state.1.set b (state.1.count b - 1), state.2 + 1)
      simp only at this
      omega
    · simp only [h, if_false]
      have := ih state
      simp only at this
      omega

theorem intersect_le (m : BigramMap) (second : List (Nat × Nat)) :
    (intersect m second).2 ≤ m.total ∧ (intersect m second).2 ≤ second.length := by
  have := intersect_aux second (m, 0)
  simp only [Nat.zero_add] at this
  unfold intersect
  dsimp only
  omega

theorem bigrams_length (s : List Nat) : (bigrams s).length = s.length - 1 := by
  simp [bigrams, List.length_zip]

theorem compareTwoStrings_self (s : String) : compareTwoStrings s s = 1 := by
  simp [compareTwoStrings]

theorem compareTwoStrings_nonneg (first second : String) :
    0 ≤ compareTwoStrings first second := by
  unfold compareTwoStrings
  simp only
  split
  · exact zero_le_one
  · split
    · exact le_refl _
    · positivity

theorem compareTwoStrings_le_one (first second : String) :
    compareTwoStrings first second ≤ 1 := by
  unfold compareTwoStrings
  simp only
  split
  · exact le_refl _
  · split
    · exact zero_le_one
    · rename_i hshort
      have hlen : 2 ≤ (stripWhitespace first).length ∧ 2 ≤ (stripWhitespace second).length := by
        omega
      have hi := intersect_le (firstBigrams (stripWhitespace first))
        (bigrams (stripWhitespace second))
      rw [total_firstBigrams, bigrams_length] at hi
      rw [bigrams_length] at hi
      have hpos : (0 : ℚ) <
          (((stripWhitespace first).length + (stripWhitespace second).length - 2 : Nat) : ℚ) := by
        have : 0 < (stripWhitespace first).length + (stripWhitespace second).length - 2 := by
          omega
        exact_mod_cast this
      rw [div_le_one hpos]
      have : 2 * (intersect (firstBigrams (stripWhitespace first))
          (bigrams (stripWhitespace second))).2
          ≤ (stripWhitespace first).length + (stripWhitespace second).length - 2 := by omega
      exact_mod_cast this

theorem getElem?_middle (pre : List Rating) (best : Rating) (post : List Rating) :
    (pre ++ best :: post)[pre.length]? = some best := by
  rw [List.getElem?_append_right (le_refl _)]
  simp

theorem loop_spec (mainString : String) (targets : List String) :
    ∀ (pre : List Rating) (best : Rating) (post : List Rating),
      (∀ r ∈ pre, r.rating < best.rating) → (∀ r ∈ post, r.rating ≤ best.rating) →
      ∃ pre2 best2 post2,
        findBestMatch.loop mainString targets (pre ++ best :: post) pre.length
            = (pre2 ++ best2 :: post2, pre2.length)
          ∧ pre2 ++ best2 :: post2 = (pre ++ best :: post) ++ targets.map (rate mainString)
          ∧ (∀ r ∈ pre2, r.rating < best2.rating) ∧ (∀ r ∈ post2, r.rating ≤ best2.rating) := by
  induction targets with
  | nil =>
    intro pre best post hpre hpost
    exact ⟨pre, best, post, rfl, by simp, hpre, hpost⟩
  | cons t rest ih =>
    intro pre best post hpre hpost
    have hmid : (pre ++ best :: post ++ [⟨t, compareTwoStrings mainString t⟩])[pre.length]?
        = some best := by
      have := getElem?_middle pre best (post ++ [⟨t, compareTwoStrings mainString t⟩])
      simpa using this
    unfold findBestMatch.loop
    simp only [hmid]
    by_cases hlt : best.rating < compareTwoStrings mainString t
    · simp only [hlt, if_true]
      obtain ⟨pre2, best2, post2, h1, h2, h3, h4⟩ :=
        ih (pre ++ best :: post) (rate mainString t) [] (by
          intro r hr
          rcases List.mem_append.mp hr with h | h
          · exact lt_trans (hpre r h) hlt
          · rcases List.mem_cons.mp h with h | h
            · rw [h]; exact hlt
            · exact lt_of_le_of_lt (hpost r h) hlt) (by simp)
      exact ⟨pre2, best2, post2, h1, by rw [h2]; simp [rate], h3, h4⟩
    · simp only [hlt, if_false]
      obtain ⟨pre2, best2, post2, h1, h2, h3, h4⟩ :=
        ih pre best (post ++ [rate mainString t]) hpre (by
          intro r hr
          rcases List.mem_append.mp hr with h | h
          · exact hpost r h
          · simp only [List.mem_singleton] at h
            rw [h]
            exact not_lt.mp hlt)
      refine ⟨pre2, best2, post2, ?_, by rw [h2]; simp [rate], h3, h4⟩
      rw [← h1]
      simp [rate]

theorem findBestMatch_spec (mainString : String) (targets : List String) (h : targets ≠ []) :
    ∃ pre best post,
      findBestMatch (.string mainString) targets = .ok ⟨pre ++ best :: post, best, pre.length⟩
        ∧ pre ++ best :: post = targets.map (rate mainString)
        ∧ (∀ r ∈ pre, r.rating < best.rating) ∧ (∀ r ∈ post, r.rating ≤ best.rating) := by
  obtain ⟨t, rest, rfl⟩ := List.exists_cons_of_ne_nil h
  obtain ⟨pre, best, post, h1, h2, h3, h4⟩ :=
    loop_spec mainString rest [] (rate mainString t) [] (by simp) (by simp)
  refine ⟨pre, best, post, ?_, by rw [h2]; simp, h3, h4⟩
  have hstart : findBestMatch.loop mainString (t :: rest) [] 0
      = findBestMatch.loop mainString rest [rate mainString t] 0 := by
    rw [findBestMatch.loop]
    simp [rate]
  simp only [List.nil_append, List.length_nil] at h1
  simp only [findBestMatch, hstart, h1, getElem?_middle]
  simp

theorem validate_name_ok (fields : List String) (name : String)
    (hn : 2 ≤ jsLength name ∧ jsLength name ≤ 30) :
    (validate [("name", .string name)] fields).error = none := by
  have h1 := check_ok ⟨some 2, some 30, .optional⟩ "name" name 2 30 rfl rfl (by decide) hn
  have g1 : JsObject.get [("name", .string name)] "name" = .string name := by
    simp [JsObject.get, List.lookup]
  have g2 : JsObject.get [("name", .string name)] "description" = .undefined := by
    have : ("description" == "name") = false := by decide
    simp [JsObject.get, List.lookup, this]
  have h2 : StringSchema.check ⟨some 3, some 200, .optional⟩ "description" .undefined = none := by
    simp [StringSchema.check]
  simp [validate_eq, joi.objectValidate, List.findSome?, g1, g2, h1, h2, List.lookup,
    keys_name_only]

/-- Create followed by Lookup exact returns the submitted pair for every valid
name that is neither an own key of the store nor a property name of
`Object.prototype`. -/
theorem create_then_lookup (store : JsObject) (name description : String)
    (hn : 2 ≤ jsLength name ∧ jsLength name ≤ 30)
    (hd : 3 ≤ jsLength description ∧ jsLength description ≤ 200)
    (hown : store.lookup name = none) (hproto : objectPrototype.lookup name = none) :
    postWord store (withEntry none name description)
        = (store.set name (.string description),
            ⟨201, .entry (.string name) (.string description)⟩)
      ∧ getWordByName (store.set name (.string description)) (byName name)
        = (store.set name (.string description),
            ⟨200, .entry (.string name) (.string description)⟩) := by
  have v1 := validate_entry_ok ["name", "description"] name description hn hd
  have v2 := validate_name_ok ["name"] name hn
  have hne : description ≠ "" := by
    rintro rfl
    rw [jsLength_empty] at hd
    omega
  have g1 : JsObject.get [("name", .string name), ("description", .string description)] "name"
      = .string name := by simp [JsObject.get, List.lookup]
  have g2 : JsObject.get [("name", .string name), ("description", .string description)]
      "description" = .string description := by
    have : ("description" == "name") = false := by decide
    simp [JsObject.get, List.lookup, this]
  have g3 : JsObject.get [("name", JsValue.string name)] "name" = .string name := by
    simp [JsObject.get, List.lookup]
  have hfalsy : (store.get name).truthy = false := by
    simp [JsObject.get, hown, hproto, JsValue.truthy]
  have hget := get_set_of_falsy store name (.string description) hfalsy
  constructor
  · simp [postWord, withEntry, v1, g1, g2, JsValue.toText, hfalsy, hget]
  · simp [getWordByName, byName, v2, g3, JsValue.toText, hget, JsValue.truthy, hne]

theorem lookup_put_ne (object : JsObject) (key k : String) (v : JsValue) (h : k ≠ key) :
    (object.put key v).lookup k = object.lookup k := by
  induction object with
  | nil =>
    have h2 : (k == key) = false := by simpa using h
    simp [JsObject.put, List.lookup, h2]
  | cons p rest ih =>
    obtain ⟨k2, w⟩ := p
    by_cases h3 : k2 = key
    · subst h3
      have h2 : (k == k2) = false := by simpa using h
      simp [JsObject.put, List.lookup, h2]
    · simp only [JsObject.put, h3, if_false, List.lookup, ih]

theorem lookup_set_ne (object : JsObject) (key k : String) (v : JsValue) (h : k ≠ key) :
    (object.set key v).lookup k = object.lookup k := by
  unfold JsObject.set
  split
  · exact lookup_put_ne object key k v h
  · split
    · rfl
    · exact lookup_put_ne object key k v h

theorem lookup_delete_ne (object : JsObject) (key k : String) (h : k ≠ key) :
    (object.delete key).lookup k = object.lookup k := by
  induction object with
  | nil => rfl
  | cons p rest ih =>
    obtain ⟨k2, w⟩ := p
    unfold JsObject.delete at ih ⊢
    by_cases h3 : k2 = key
    · subst h3
      have h2 : (k == k2) = false := by simpa using h
      simp [List.filter, List.lookup, h2, ih]
    · have h4 : (k2 != key) = true := by simpa using h3
      simp only [List.filter, h4, List.lookup, ih]

theorem get_of_lookup (object : JsObject) (key : String) (v : JsValue)
    (h : object.lookup key = some v) : object.get key = v := by
  simp [JsObject.get, h]

/-- A handler leaves every own property whose value is truthy as it was. -/
theorem handle_keeps_truthy (op : Operation) (store : JsObject) (request : Request)
    (k : String) (v : JsValue) (hk : store.lookup k = some v) (hv : v.truthy = true) :
    (handle op store request).1.lookup k = some v := by
  have hget : (store.get k).truthy = true := by rw [get_of_lookup store k v hk]; exact hv
  cases op with
  | lookup =>
    simp only [handle, getWordByName]
    split
    · exact hk
    · split <;> exact hk
  | create =>
    simp only [handle, postWord]
    split
    · exact hk
    · split
      · exact hk
      · rename_i hfalsy
        have hne : k ≠ (request.body.get "name").toText := by
          rintro rfl
          exact hfalsy hget
        simp only [lookup_set_ne _ _ _ _ hne, hk]
  | update =>
    simp only [handle, putWord]
    split <;> exact hk
  | fuzzy =>
    simp only [handle, getWord]
    split
    · exact hk
    · split <;> exact hk
  | delete =>
    simp only [handle, deleteWord]
    split
    · exact hk
    · split
      · exact hk
      · rename_i hfalsy
        have hne : k ≠ (request.params.get "name").toText := by
          rintro rfl
          exact hfalsy hget
        simp only [lookup_delete_ne _ _ _ hne, hk]

theorem run_keeps_truthy (requests : List (Operation × Request)) :
    ∀ (store : JsObject) (k : String) (v : JsValue), store.lookup k = some v →
      v.truthy = true → (run store requests).lookup k = some v := by
  induction requests with
  | nil => intro store k v hk _; exact hk
  | cons r rest ih =>
    intro store k v hk hv
    obtain ⟨op, request⟩ := r
    exact ih _ k v (handle_keeps_truthy op store request k v hk hv) hv

theorem keys_perm (object : JsObject) : List.Perm object.keys (object.map Prod.fst) := by
  unfold JsObject.keys
  simp only
  have h1 : List.Perm
      ((List.insertionSort (fun a b : Nat × String => a.1 ≤ b.1)
        ((object.map Prod.fst).filterMap
          (fun k => (arrayIndex k).map (fun n => (n, k))))).map Prod.snd)
      ((object.map Prod.fst).filter (fun k => (arrayIndex k).isSome)) := by
    refine ((List.perm_insertionSort _ _).map Prod.snd).trans ?_
    apply List.Perm.of_eq
    generalize object.map Prod.fst = ks
    induction ks with
    | nil => rfl
    | cons k ks ih =>
      cases h : arrayIndex k <;> simp [List.filterMap_cons, List.filter_cons, h, ih]
  refine (h1.append_right _).trans ?_
  have h2 := List.filter_append_perm (fun k => (arrayIndex k).isSome) (object.map Prod.fst)
  refine List.Perm.trans (List.Perm.of_eq ?_) h2
  congr 1
  apply List.filter_congr
  intro k _
  cases arrayIndex k <;> rfl

theorem keys_ne_nil (object : JsObject) (h : object ≠ []) : object.keys ≠ [] := by
  intro hk
  have := (keys_perm object).length_eq
  rw [hk] at this
  simp only [List.length_nil, List.length_map] at this
  exact h (List.length_eq_zero.mp this.symm)

theorem check_none (key : String) (lo hi : Nat) (v : JsValue)
    (h : StringSchema.check ⟨some lo, some hi, .optional⟩ key v = none) : accepted lo hi v := by
  cases v with
  | undefined => exact Or.inl rfl
  | other t text => simp [StringSchema.check] at h
  | string s =>
    right
    refine ⟨s, rfl, ?_⟩
    unfold StringSchema.check at h
    by_cases hs : s = ""
    · simp [hs] at h
    · simp only [hs, if_false] at h
      by_cases h1 : jsLength s < lo
      · simp [Option.filter, h1] at h
      · by_cases h2 : hi < jsLength s
        · simp [Option.filter, h1, h2] at h
        · omega

theorem validate_ok_fields (object : JsObject) (fields : List String)
    (h : (validate object fields).error = none) :
    accepted 2 30 (object.get "name") ∧ accepted 3 200 (object.get "description") := by
  rw [validate_eq] at h
  unfold joi.objectValidate at h
  simp only [List.findSome?] at h
  cases h1 : StringSchema.check ⟨some 2, some 30, .optional⟩ "name" (object.get "name") with
  | some m => simp [h1] at h
  | none =>
    cases h2 : StringSchema.check ⟨some 3, some 200, .optional⟩ "description"
        (object.get "description") with
    | some m => simp [h1, h2] at h
    | none => exact ⟨check_none _ _ _ _ h1, check_none _ _ _ _ h2⟩

theorem validate_name_rejected (object : JsObject) (fields : List String)
    (hpresent : object.get "name" ≠ .undefined)
    (hbad : ¬ ∃ s, object.get "name" = .string s ∧ 2 ≤ jsLength s ∧ jsLength s ≤ 30) :
    ∃ message, (validate object fields).error = some ⟨[message]⟩ ∧ namesField "name" message := by
  cases hv : object.get "name" with
  | undefined => exact absurd hv hpresent
  | other t text =>
    refine ⟨label "name" ++ " must be a string", ?_, " must be a string", rfl⟩
    simp [validate_eq, joi.objectValidate, List.findSome?, hv, StringSchema.check]
  | string s =>
    apply validate_name_fails object fields s hv
    by_contra hlen
    exact hbad ⟨s, hv, by omega, by omega⟩

theorem mem_put (object : JsObject) (key : String) (v : JsValue) (p : String × JsValue)
    (h : p ∈ object.put key v) : p ∈ object ∨ p = (key, v) := by
  induction object with
  | nil => simp [JsObject.put] at h; exact Or.inr h
  | cons q rest ih =>
    obtain ⟨k, w⟩ := q
    by_cases hk : k = key
    · subst hk
      simp only [JsObject.put, if_true, List.mem_cons] at h
      rcases h with h | h
      · exact Or.inr h
      · exact Or.inl (List.mem_cons_of_mem _ h)
    · simp only [JsObject.put, hk, if_false, List.mem_cons] at h
      rcases h with h | h
      · exact Or.inl (h ▸ List.mem_cons_self _ _)
      · rcases ih h with h | h
        · exact Or.inl (List.mem_cons_of_mem _ h)
        · exact Or.inr h

theorem mem_set (object : JsObject) (key : String) (v : JsValue) (p : String × JsValue)
    (h : p ∈ object.set key v) : p ∈ object ∨ p = (key, v) := by
  unfold JsObject.set at h
  split at h
  · exact mem_put object key v p h
  · split at h
    · exact Or.inl h
    · exact mem_put object key v p h

theorem toText_length (v : JsValue) (h : accepted 2 30 v) :
    2 ≤ jsLength v.toText ∧ jsLength v.toText ≤ 30 := by
  rcases h with h | ⟨s, h, hlen⟩
  · subst h; decide
  · subst h; exact hlen

theorem handle_entriesAccepted (op : Operation) (store : JsObject) (request : Request)
    (h : entriesAccepted store) : entriesAccepted (handle op store request).1 := by
  cases op with
  | lookup =>
    simp only [handle, getWordByName]
    split
    · exact h
    · split <;> exact h
  | create =>
    simp only [handle, postWord]
    split
    · exact h
    · rename_i hv
      split
      · exact h
      · obtain ⟨hname, hdesc⟩ := validate_ok_fields _ _ hv
        intro p hp
        rcases mem_set _ _ _ _ hp with hp | hp
        · exact h p hp
        · subst hp
          exact ⟨toText_length _ hname, hdesc⟩
  | update =>
    simp only [handle, putWord]
    split <;> exact h
  | fuzzy =>
    simp only [handle, getWord]
    split
    · exact h
    · split <;> exact h
  | delete =>
    simp only [handle, deleteWord]
    split
    · exact h
    · split
      · exact h
      · intro p hp
        exact h p (List.mem_filter.mp hp).1

theorem run_entriesAccepted (requests : List (Operation × Request)) :
    ∀ store, entriesAccepted store → entriesAccepted (run store requests) := by
  induction requests with
  | nil => intro store h; exact h
  | cons r rest ih =>
    intro store h
    obtain ⟨op, request⟩ := r
    exact ih _ (handle_entriesAccepted op store request h)

theorem dictionary_entriesAccepted : entriesAccepted dictionary := by
  intro p hp
  simp only [dictionary, List.mem_cons, List.mem_singleton, List.not_mem_nil, or_false] at hp
  rcases hp with h | h | h <;> subst h
  · exact ⟨by decide, Or.inr ⟨_, rfl, by decide, by decide⟩⟩
  · exact ⟨by decide, Or.inr ⟨_, rfl, by decide, by decide⟩⟩
  · exact ⟨by decide, Or.inr ⟨_, rfl, by decide, by decide⟩⟩

/-- In every store reached from the seed store each key has length 2..30 and
each value is `undefined` or a string of length 3..200. -/
theorem reachable_entriesAccepted (requests : List (Operation × Request)) :
    entriesAccepted (run dictionary requests) :=
  run_entriesAccepted requests dictionary dictionary_entriesAccepted

/-- Update never changes the store; when validation passes it answers 200 with
the body's name and the value read from the store under that name, whatever
the path parameter and the submitted description. -/
theorem putWord_reads_only (store : JsObject) (request : Request) :
    (putWord store request).1 = store
      ∧ ((validate request.body ["name", "description"]).error = none →
          (putWord store request).2
            = ⟨200, .entry (request.body.get "name")
                (store.get (request.body.get "name").toText)⟩) := by
  constructor
  · simp only [putWord]
    split <;> rfl
  · intro h
    simp [putWord, h]

theorem utf8Length_append (a b : String) : utf8Length (a ++ b) = utf8Length a + utf8Length b := by
  simp [utf8Length, String.toList, String.data_append]

theorem utf8Length_replicate (n : Nat) (c : Char) :
    utf8Length (String.mk (List.replicate n c))
      = n * (if c.toNat < 0x80 then 1 else if c.toNat < 0x800 then 2
          else if c.toNat < 0x10000 then 3 else 4) := by
  simp [utf8Length, String.toList, List.map_replicate, List.sum_replicate]

theorem jsLength_replicate (n : Nat) (c : Char) (h : c.toNat < 0x10000) :
    jsLength (String.mk (List.replicate n c)) = n := by
  unfold jsLength utf16
  simp only [String.toList]
  induction n with
  | zero => rfl
  | succ n ih => simp [List.replicate_succ, List.flatMap_cons, h, ih]

theorem jsLength_longDescription : jsLength longDescription = 34200 :=
  jsLength_replicate 34200 '€' (by decide)

theorem utf8Length_longDescription : utf8Length longDescription = 102600 := by
  unfold longDescription
  rw [utf8Length_replicate]
  decide

theorem utf8Length_rawEntry_long : utf8Length (rawEntry "owl" longDescription) = 102631 := by
  unfold rawEntry
  simp only [utf8Length_append, utf8Length_longDescription]
  decide

theorem serve_of_accepted (op : Operation) (store : JsObject) (incoming : Incoming)
    (body : JsObject) (hparse : incoming.parse = .object body)
    (hfits : incoming.bodyBytes ≤ jsonLimit) :
    serve op store incoming = handle op store ⟨incoming.params, incoming.query, body⟩ := by
  simp [serve, hparse, Nat.not_lt.mpr hfits]

theorem serve_of_oversized (op : Operation) (store : JsObject) (incoming : Incoming)
    (hparse : incoming.parse ≠ .unsupported) (hbig : jsonLimit < incoming.bodyBytes) :
    (serve op store incoming).1 = store ∧ (serve op store incoming).2.status = 413 := by
  unfold serve
  split
  · rename_i h; exact absurd h hparse
  · simp [hbig]
  · simp [hbig]

/-! ## The claims -/

/-- Claim C1 (code defect): on the seed store the request
`DELETE /api/word/knight`, whose name is a key of the store, is answered 404
and leaves the entry in place, so that the following Lookup exact of `knight`
is answered 200 with the stored pair. -/
theorem delete_existing_key_refused :
    deleteWord dictionary (byName "knight")
        = (dictionary, ⟨404, .text "word 'knight' not found"⟩)
      ∧ getWordByName (deleteWord dictionary (byName "knight")).1 (byName "knight")
        = (dictionary, ⟨200, .entry (.string "knight") (.string "a man in armor")⟩) := by
  decide

/-- Claim C2 (code defect): on the seed store the request
`DELETE /api/word/owl`, whose name is not a key of the store, is answered 200
with an empty body; the store is left as it was. -/
theorem delete_absent_key_accepted :
    "owl" ∉ dictionary.keys
      ∧ deleteWord dictionary (byName "owl") = (dictionary, ⟨200, .empty⟩) := by
  decide

/-- Claim C3 (code defect): Update never writes.  On the seed store
`PUT /api/word/knight` with a new description is answered 200 with the old
description, and `PUT /api/word/owl` for a name that is not a key is answered
200 without a description; in both cases the store is left as it was. -/
theorem update_does_not_write :
    putWord dictionary (withEntry (some "knight") "knight" "a horse rider")
        = (dictionary, ⟨200, .entry (.string "knight") (.string "a man in armor")⟩)
      ∧ putWord dictionary (withEntry (some "owl") "owl" "a bird")
        = (dictionary, ⟨200, .entry (.string "owl") .undefined⟩) := by
  decide

/-- Claim C4 (code defect): on the seed store the name `constructor` is not
an entry, yet Create of it with a valid description is answered 409 and stores
nothing, and the following Lookup exact answers 200 with the function the
store inherits under that name, not with the submitted description. -/
theorem create_inherited_name_conflicts :
    "constructor" ∉ dictionary.keys
      ∧ (2 ≤ jsLength "constructor" ∧ jsLength "constructor" ≤ 30)
      ∧ postWord dictionary (withEntry none "constructor" "a builder")
        = (dictionary, ⟨409, .text "word 'constructor' already exist"⟩)
      ∧ getWordByName dictionary (byName "constructor")
        = (dictionary,
            ⟨200, .entry (.string "constructor") (.other true "function Object() \x7b [native code] \x7d")⟩) := by
  decide

/-- Claim C5: when Create(name, d1) is answered 201, an immediately following
Create(name, d2) is answered 409 and leaves the whole store as the first call
left it, with name still mapped to d1. -/
theorem create_twice_conflicts (store : JsObject) (name d1 d2 : String)
    (hn : 2 ≤ jsLength name ∧ jsLength name ≤ 30)
    (h1 : 3 ≤ jsLength d1 ∧ jsLength d1 ≤ 200)
    (h2 : 3 ≤ jsLength d2 ∧ jsLength d2 ≤ 200)
    (hcreated : (postWord store (withEntry none name d1)).2.status = 201) :
    postWord (postWord store (withEntry none name d1)).1 (withEntry none name d2)
        = ((postWord store (withEntry none name d1)).1,
            ⟨409, .text ("word '" ++ name ++ "' already exist")⟩)
      ∧ (postWord store (withEntry none name d1)).1.get name = .string d1 := by
  have v1 := validate_entry_ok ["name", "description"] name d1 hn h1
  have v2 := validate_entry_ok ["name", "description"] name d2 hn h2
  have hd1 : d1 ≠ "" := by
    rintro rfl
    rw [jsLength_empty] at h1
    omega
  have g1 : ∀ d, JsObject.get [("name", .string name), ("description", .string d)] "name"
      = .string name := by intro d; simp [JsObject.get, List.lookup]
  have g2 : ∀ d, JsObject.get [("name", .string name), ("description", .string d)]
      "description" = .string d := by
    intro d
    have : ("description" == "name") = false := by decide
    simp [JsObject.get, List.lookup, this]
  by_cases hfound : (store.get name).truthy = true
  · simp [postWord, withEntry, v1, g1, JsValue.toText, hfound] at hcreated
  · have hfalsy : (store.get name).truthy = false := by simpa using hfound
    have hstore : (postWord store (withEntry none name d1)).1 = store.set name (.string d1) := by
      simp [postWord, withEntry, v1, g1, g2, JsValue.toText, hfalsy]
    have hget : (store.set name (.string d1)).get name = .string d1 :=
      get_set_of_falsy store name _ hfalsy
    rw [hstore]
    refine ⟨?_, hget⟩
    simp [postWord, withEntry, v2, g1, JsValue.toText, hget, JsValue.truthy, hd1]

/-- Instance on the seed store: `owl` created twice. -/
theorem create_twice_conflicts_witness :
    (postWord dictionary (withEntry none "owl" "a bird")).2.status = 201
      ∧ postWord (postWord dictionary (withEntry none "owl" "a bird")).1
          (withEntry none "owl" "a night bird")
        = (dictionary ++ [("owl", .string "a bird")],
            ⟨409, .text "word 'owl' already exist"⟩) :=
  ⟨by decide,
    (create_twice_conflicts dictionary "owl" "a bird" "a night bird" (by decide) (by decide)
      (by decide) (by decide)).1⟩

/-- Claim C6 (code defect): `validate` accepts an object that lacks the
fields named in `fields`.  On the seed store Create of a body without a name
is answered 201 and stores the description under the key `undefined`, Create
and Update of a body without a description are answered 201 and 200, and Fuzzy
lookup without a name passes validation and is answered 500. -/
theorem validate_accepts_missing_fields :
    (validate [] ["name", "description"]).error = none
      ∧ postWord dictionary ⟨[], [], [("description", .string "a bird")]⟩
        = (dictionary ++ [("undefined", .string "a bird")],
            ⟨201, .entry .undefined (.string "a bird")⟩)
      ∧ postWord dictionary ⟨[], [], [("name", .string "owl")]⟩
        = (dictionary ++ [("owl", .undefined)], ⟨201, .entry (.string "owl") .undefined⟩)
      ∧ putWord dictionary ⟨[("name", .string "owl")], [], [("name", .string "owl")]⟩
        = (dictionary, ⟨200, .entry (.string "owl") .undefined⟩)
      ∧ (validate [] ["name"]).error = none
      ∧ (getWord dictionary ⟨[], [], []⟩).2.status = 500 := by
  decide

/-- Each of the five handlers, once it is called, answers a name that is a
string of length outside [2,30] with 400 and a message naming the field
`name`, and the handlers of Create and Update answer a description of length
outside [3,200] with 400; the store is left as it was. -/
theorem handler_rejects_invalid_length (store : JsObject) (request : Request) :
    (∀ s, (jsLength s < 2 ∨ 30 < jsLength s) → request.params.get "name" = .string s →
      rejectedFor "name" store (getWordByName store request)
        ∧ rejectedFor "name" store (deleteWord store request))
    ∧ (∀ s, (jsLength s < 2 ∨ 30 < jsLength s) → request.query.get "name" = .string s →
      rejectedFor "name" store (getWord store request))
    ∧ (∀ s, (jsLength s < 2 ∨ 30 < jsLength s) → request.body.get "name" = .string s →
      rejectedFor "name" store (postWord store request)
        ∧ rejectedFor "name" store (putWord store request))
    ∧ (∀ d, (jsLength d < 3 ∨ 200 < jsLength d) →
      request.body.get "description" = .string d →
      (∃ message, postWord store request = (store, ⟨400, .text message⟩))
        ∧ (∃ message, putWord store request = (store, ⟨400, .text message⟩))) := by
  refine ⟨?_, ?_, ?_, ?_⟩
  · intro s hs hget
    obtain ⟨message, hm, hn⟩ := validate_name_fails request.params ["name"] s hget hs
    exact ⟨⟨message, by rw [getWordByName_of_error _ _ _ hm, badRequest_single], hn⟩,
      ⟨message, by rw [deleteWord_of_error _ _ _ hm, badRequest_single], hn⟩⟩
  · intro s hs hget
    obtain ⟨message, hm, hn⟩ := validate_name_fails request.query ["name"] s hget hs
    exact ⟨message, by rw [getWord_of_error _ _ _ hm, badRequest_single], hn⟩
  · intro s hs hget
    obtain ⟨message, hm, hn⟩ :=
      validate_name_fails request.body ["name", "description"] s hget hs
    exact ⟨⟨message, by rw [postWord_of_error _ _ _ hm, badRequest_single], hn⟩,
      ⟨message, by rw [putWord_of_error _ _ _ hm, badRequest_single], hn⟩⟩
  · intro d hd hget
    obtain ⟨message, hm⟩ :=
      validate_description_fails request.body ["name", "description"] d hget hd
    exact ⟨⟨message, by rw [postWord_of_error _ _ _ hm, badRequest_single]⟩,
      ⟨message, by rw [putWord_of_error _ _ _ hm, badRequest_single]⟩⟩

/-- Claim C7, amended: a request that the body parser hands to its handler, its
JSON body (if any) being well-formed and of at most 100kb, is answered 400 with
a message naming the field `name` by each of the five operations when its name
is a string of length outside [2,30], and 400 by Create and Update when its
description is a string of length outside [3,200]; a request whose JSON body
exceeds 100kb is answered 413 by the body parser, whatever the operation.  The
store is left as it was. -/
theorem served_invalid_length_answers_400 (store : JsObject) (incoming : Incoming) :
    (∀ body, incoming.parse = .object body → incoming.bodyBytes ≤ jsonLimit →
      (∀ s, (jsLength s < 2 ∨ 30 < jsLength s) → incoming.params.get "name" = .string s →
        rejectedFor "name" store (serve .lookup store incoming)
          ∧ rejectedFor "name" store (serve .delete store incoming))
      ∧ (∀ s, (jsLength s < 2 ∨ 30 < jsLength s) → incoming.query.get "name" = .string s →
        rejectedFor "name" store (serve .fuzzy store incoming))
      ∧ (∀ s, (jsLength s < 2 ∨ 30 < jsLength s) → body.get "name" = .string s →
        rejectedFor "name" store (serve .create store incoming)
          ∧ rejectedFor "name" store (serve .update store incoming))
      ∧ (∀ d, (jsLength d < 3 ∨ 200 < jsLength d) → body.get "description" = .string d →
        (∃ message, serve .create store incoming = (store, ⟨400, .text message⟩))
          ∧ (∃ message, serve .update store incoming = (store, ⟨400, .text message⟩))))
    ∧ (incoming.parse ≠ .unsupported → jsonLimit < incoming.bodyBytes →
      ∀ op, (serve op store incoming).1 = store ∧ (serve op store incoming).2.status = 413) := by
  constructor
  · intro body hparse hfits
    simp only [serve_of_accepted _ _ _ body hparse hfits, handle]
    exact handler_rejects_invalid_length store ⟨incoming.params, incoming.query, body⟩
  · intro hparse hbig op
    exact serve_of_oversized op store incoming hparse hbig

/-- Instance on the seed store: a name of one character in the path, a name of
thirty-one characters in the query and a description of two characters in a
body of 33 bytes are answered 400; an Update with a body of 102631 bytes is
answered 413. -/
theorem served_invalid_length_answers_400_witness :
    (serve .lookup dictionary (jsonRequest "" (byName "k"))).2.status = 400
      ∧ (serve .fuzzy dictionary
          (jsonRequest "" (byQuery "a name of thirty-one characters"))).2.status = 400
      ∧ (serve .create dictionary
          (jsonRequest (rawEntry "owl" "ab") (withEntry none "owl" "ab"))).2.status = 400
      ∧ (serve .update dictionary
          (jsonRequest (rawEntry "owl" longDescription)
            (withEntry (some "owl") "owl" longDescription))).2.status = 413 := by
  refine ⟨?_, ?_, ?_, ?_⟩
  · obtain ⟨message, h, -⟩ :=
      (((served_invalid_length_answers_400 dictionary (jsonRequest "" (byName "k"))).1
        [] rfl (by decide)).1 "k" (by decide) (by decide)).1
    rw [h]
  · obtain ⟨message, h, -⟩ :=
      ((served_invalid_length_answers_400 dictionary
        (jsonRequest "" (byQuery "a name of thirty-one characters"))).1
        [] rfl (by decide)).2.1 "a name of thirty-one characters" (by decide) (by decide)
    rw [h]
  · obtain ⟨message, h⟩ :=
      (((served_invalid_length_answers_400 dictionary
        (jsonRequest (rawEntry "owl" "ab") (withEntry none "owl" "ab"))).1
        _ rfl (by decide)).2.2.2 "ab" (by decide) (by decide)).1
    rw [h]
  · exact ((served_invalid_length_answers_400 dictionary
      (jsonRequest (rawEntry "owl" longDescription)
        (withEntry (some "owl") "owl" longDescription))).2
      (by simp [jsonRequest])
      (by simp only [jsonRequest]; rw [utf8Length_rawEntry_long]; decide) .update).2

/-- Claim C7 as stated fails: a description of 34200 euro signs has a length
outside [3,200], and Create of it under the valid name `owl` arrives as a JSON
body of 102631 bytes, more than the 102400 the body parser admits, so the
answer on the seed store is 413, not 400; the description alone takes 102600
bytes, so no JSON text of this body fits. -/
theorem served_invalid_length_counterexample :
    200 < jsLength longDescription
      ∧ (2 ≤ jsLength "owl" ∧ jsLength "owl" ≤ 30)
      ∧ (withEntry none "owl" longDescription).body.get "description"
        = .string longDescription
      ∧ utf8Length (rawEntry "owl" longDescription) = 102631
      ∧ utf8Length longDescription = 102600
      ∧ jsonLimit = 102400
      ∧ (serve .create dictionary
          (jsonRequest (rawEntry "owl" longDescription)
            (withEntry none "owl" longDescription))).1 = dictionary
      ∧ (serve .create dictionary
          (jsonRequest (rawEntry "owl" longDescription)
            (withEntry none "owl" longDescription))).2.status = 413
      ∧ (serve .create dictionary
          (jsonRequest (rawEntry "owl" longDescription)
            (withEntry none "owl" longDescription))).2.status ≠ 400 := by
  have hserve := serve_of_oversized .create dictionary
    (jsonRequest (rawEntry "owl" longDescription) (withEntry none "owl" longDescription))
    (by simp [jsonRequest])
    (by simp only [jsonRequest]; rw [utf8Length_rawEntry_long]; decide)
  refine ⟨by rw [jsLength_longDescription]; decide, by decide, ?_, utf8Length_rawEntry_long,
    utf8Length_longDescription, by decide, hserve.1, hserve.2, ?_⟩
  · have : ("description" == "name") = false := by decide
    simp [withEntry, JsObject.get, List.lookup, this]
  · rw [hserve.2]; decide

/-- Claim C8 (code defect): on the seed store the name `constructor`, which
is not an entry of the store, is answered by Lookup exact with 200 and the
function the store inherits under that name; and an entry created without a
description is a key of the store that Lookup exact answers with 404. -/
theorem lookup_inherited_name_found :
    "constructor" ∉ dictionary.keys
      ∧ getWordByName dictionary (byName "constructor")
        = (dictionary,
            ⟨200, .entry (.string "constructor") (.other true "function Object() \x7b [native code] \x7d")⟩)
      ∧ "owl" ∈ JsObject.keys (postWord dictionary ⟨[], [], [("name", .string "owl")]⟩).1
      ∧ (getWordByName (postWord dictionary ⟨[], [], [("name", .string "owl")]⟩).1
          (byName "owl")).2
        = ⟨404, .text "word 'owl' not found"⟩ := by
  decide

/-- Claim C9, amended: Fuzzy lookup with a key k of the store that is a valid
name is answered 200 with rating 1 and a target that is a key rated 1 against
k; the target is k itself when no key before k in iteration order is rated 1
against k. -/
theorem fuzzy_exact_key (store : JsObject) (k : String) (hk : k ∈ store.keys)
    (hvalid : 2 ≤ jsLength k ∧ jsLength k ≤ 30) :
    ∃ target, getWord store (byQuery k) = (store, ⟨200, .bestMatch target 1⟩)
      ∧ target ∈ store.keys ∧ compareTwoStrings k target = 1
      ∧ (∀ pre post, store.keys = pre ++ k :: post →
          (∀ x ∈ pre, compareTwoStrings k x ≠ 1) → target = k) := by
  have hne : store.keys ≠ [] := List.ne_nil_of_mem hk
  obtain ⟨pre, best, post, hfind, hmap, hpre, hpost⟩ := findBestMatch_spec k store.keys hne
  obtain ⟨kpre, krest, hkeys, hkpre, hkrest⟩ := List.map_eq_append_iff.mp hmap.symm
  obtain ⟨t, kpost, hkrest2, hbest, hkpost⟩ := List.map_eq_cons_iff.mp hkrest
  subst hkrest2
  have hbestle : best.rating ≤ 1 := by rw [← hbest]; exact compareTwoStrings_le_one k t
  have hall : ∀ x ∈ kpre, compareTwoStrings k x < best.rating := by
    intro x hx
    have : rate k x ∈ pre := by rw [← hkpre]; exact List.mem_map_of_mem _ hx
    exact hpre _ this
  have hone : best.rating = 1 := by
    apply le_antisymm hbestle
    rw [hkeys] at hk
    rcases List.mem_append.mp hk with h | h
    · have := hall k h
      rw [compareTwoStrings_self] at this
      exact le_of_lt this
    · rcases List.mem_cons.mp h with h | h
      · rw [← hbest, ← h]
        exact le_of_eq (compareTwoStrings_self k).symm
      · have : rate k k ∈ post := by rw [← hkpost]; exact List.mem_map_of_mem _ h
        have := hpost _ this
        simpa [rate, compareTwoStrings_self] using this
  have htarget : best.target = t := by rw [← hbest]; rfl
  have hrating : compareTwoStrings k t = 1 := by rw [← hone, ← hbest]; rfl
  refine ⟨t, ?_, ?_, hrating, ?_⟩
  · have hv := validate_name_ok ["name"] k hvalid
    have hq : JsObject.get [("name", JsValue.string k)] "name" = .string k := by
      simp [JsObject.get, List.lookup]
    simp [getWord, byQuery, hv, hq, hfind, htarget, hone]
  · rw [hkeys]; simp
  · intro p q hpq hp
    rw [hkeys] at hpq
    rcases List.append_eq_append_iff.mp hpq with ⟨a, ha, hb⟩ | ⟨c, hc, hd⟩
    · cases a with
      | nil => simp at hb; exact hb.1
      | cons x a =>
        simp only [List.cons_append, List.cons.injEq] at hb
        exfalso
        apply hp t _ hrating
        rw [ha, hb.1]
        simp
    · cases c with
      | nil => simp at hd; exact hd.1.symm
      | cons x c =>
        simp only [List.cons_append, List.cons.injEq] at hd
        exfalso
        have hlt := hall k (by rw [hc, hd.1]; simp)
        rw [compareTwoStrings_self, hone] at hlt
        exact lt_irrefl _ hlt

/-- Instance on the seed store: the query `knight`, where `knight` is the
first key, is answered with target `knight` and rating 1. -/
theorem fuzzy_exact_key_witness :
    getWord dictionary (byQuery "knight") = (dictionary, ⟨200, .bestMatch "knight" 1⟩) := by
  obtain ⟨target, h, -, -, hfirst⟩ :=
    fuzzy_exact_key dictionary "knight" (by decide) (by decide)
  have ht : target = "knight" := hfirst [] ["knife", "knee"] (by decide) (by simp)
  rw [ht] at h
  exact h

/-- Claim C9 as stated fails on the store reached from the seed store by
creating `a b` and then `ab`: the key `ab` is a valid name, and Fuzzy lookup
with `ab` answers the target `a b`, the first key rated 1. -/
theorem fuzzy_exact_key_counterexample :
    (postWord (postWord dictionary (withEntry none "a b" "not ab")).1
        (withEntry none "ab" "the word")).1
        = dictionary ++ [("a b", .string "not ab"), ("ab", .string "the word")]
      ∧ "ab" ∈ JsObject.keys
          (dictionary ++ [("a b", .string "not ab"), ("ab", .string "the word")])
      ∧ (2 ≤ jsLength "ab" ∧ jsLength "ab" ≤ 30)
      ∧ getWord (dictionary ++ [("a b", .string "not ab"), ("ab", .string "the word")])
          (byQuery "ab")
        = (dictionary ++ [("a b", .string "not ab"), ("ab", .string "the word")],
            ⟨200, .bestMatch "a b" 1⟩)
      ∧ getWord (dictionary ++ [("a b", .string "not ab"), ("ab", .string "the word")])
          (byQuery "ab")
        ≠ (dictionary ++ [("a b", .string "not ab"), ("ab", .string "the word")],
            ⟨200, .bestMatch "ab" 1⟩) := by
  decide!

/-- Claim C10: whenever a handler answers 400, 404 or 409 the store after the
request is the store before it, and a request that fails validation is
answered from the validation error alone, with status 400. -/
theorem error_leaves_store (op : Operation) (store : JsObject) (request : Request) :
    (((handle op store request).2.status = 400 ∨ (handle op store request).2.status = 404
        ∨ (handle op store request).2.status = 409) → (handle op store request).1 = store)
    ∧ (∀ e, (validate request.params ["name"]).error = some e →
        (badRequest e).status = 400
          ∧ getWordByName store request = (store, badRequest e)
          ∧ deleteWord store request = (store, badRequest e))
    ∧ (∀ e, (validate request.body ["name", "description"]).error = some e →
        (badRequest e).status = 400
          ∧ postWord store request = (store, badRequest e)
          ∧ putWord store request = (store, badRequest e))
    ∧ (∀ e, (validate request.query ["name"]).error = some e →
        (badRequest e).status = 400 ∧ getWord store request = (store, badRequest e)) := by
  refine ⟨?_, ?_, ?_, ?_⟩
  · intro h
    cases op with
    | lookup =>
      simp only [handle, getWordByName]
      split
      · rfl
      · split <;> rfl
    | create =>
      simp only [handle, postWord] at h ⊢
      split at h
      · rfl
      · split at h
        · rename_i hfound
          simp [hfound]
        · simp at h
    | update =>
      simp only [handle, putWord]
      split <;> rfl
    | fuzzy =>
      simp only [handle, getWord]
      split
      · rfl
      · split <;> rfl
    | delete =>
      simp only [handle, deleteWord] at h ⊢
      split at h
      · rfl
      · split at h
        · rename_i hfound
          simp [hfound]
        · simp at h
  · intro e h
    exact ⟨badRequest_status _ _ e h, getWordByName_of_error _ _ e h, deleteWord_of_error _ _ e h⟩
  · intro e h
    exact ⟨badRequest_status _ _ e h, postWord_of_error _ _ e h, putWord_of_error _ _ e h⟩
  · intro e h
    exact ⟨badRequest_status _ _ e h, getWord_of_error _ _ e h⟩

/-- Instance on the seed store: Create of the seed entry `knee` is answered
409 and leaves the store as it was. -/
theorem error_leaves_store_witness :
    (handle .create dictionary (withEntry none "knee" "a joint")).2.status = 409
      ∧ (handle .create dictionary (withEntry none "knee" "a joint")).1 = dictionary :=
  ⟨by decide,
    (error_leaves_store .create dictionary (withEntry none "knee" "a joint")).1
      (Or.inr (Or.inr (by decide)))⟩

/-- Claim C11 (code defect): Create accepts a body without a description, and
a body without a name.  From the seed store `POST /api/word` with the body
`{name: "owl"}` reaches a store whose key `owl` maps to `undefined`, and with
the empty body a store whose key `undefined` maps to `undefined`: neither is
a description of length 3..200. -/
theorem created_without_description :
    run dictionary [(.create, ⟨[], [], [("name", .string "owl")]⟩)]
        = dictionary ++ [("owl", .undefined)]
      ∧ JsObject.keys (run dictionary [(.create, ⟨[], [], [("name", .string "owl")]⟩)])
        = ["knight", "knife", "knee", "owl"]
      ∧ run dictionary [(.create, ⟨[], [], []⟩)] = dictionary ++ [("undefined", .undefined)] := by
  decide

/-- Claim C12: on a non-empty store Fuzzy lookup with a query of length 2..30
is answered 200 with a target that is a key of the store and its rating
against the query; the rating lies in [0,1], no key is rated higher, and every
key before the target in key iteration order is rated strictly lower. -/
theorem fuzzy_best_match (store : JsObject) (query : String) (hstore : store ≠ [])
    (hquery : 2 ≤ jsLength query ∧ jsLength query ≤ 30) :
    ∃ pre target post, store.keys = pre ++ target :: post
      ∧ getWord store (byQuery query)
        = (store, ⟨200, .bestMatch target (compareTwoStrings query target)⟩)
      ∧ target ∈ store.map Prod.fst
      ∧ 0 ≤ compareTwoStrings query target ∧ compareTwoStrings query target ≤ 1
      ∧ (∀ k ∈ store.keys, compareTwoStrings query k ≤ compareTwoStrings query target)
      ∧ (∀ k ∈ pre, compareTwoStrings query k < compareTwoStrings query target) := by
  obtain ⟨pre, best, post, hfind, hmap, hpre, hpost⟩ :=
    findBestMatch_spec query store.keys (keys_ne_nil store hstore)
  obtain ⟨kpre, krest, hkeys, hkpre, hkrest⟩ := List.map_eq_append_iff.mp hmap.symm
  obtain ⟨t, kpost, hkrest2, hbest, hkpost⟩ := List.map_eq_cons_iff.mp hkrest
  subst hkrest2
  have htarget : best.target = t := by rw [← hbest]; rfl
  have hrating : best.rating = compareTwoStrings query t := by rw [← hbest]; rfl
  have hlow : ∀ k ∈ kpre, compareTwoStrings query k < compareTwoStrings query t := by
    intro k hk
    have : rate query k ∈ pre := by rw [← hkpre]; exact List.mem_map_of_mem _ hk
    rw [← hrating]
    exact hpre _ this
  refine ⟨kpre, t, kpost, hkeys, ?_, ?_, compareTwoStrings_nonneg _ _,
    compareTwoStrings_le_one _ _, ?_, hlow⟩
  · have hv := validate_name_ok ["name"] query hquery
    have hq : JsObject.get [("name", JsValue.string query)] "name" = .string query := by
      simp [JsObject.get, List.lookup]
    simp [getWord, byQuery, hv, hq, hfind, htarget, hrating]
  · apply (keys_perm store).subset
    rw [hkeys]
    simp
  · intro k hk
    rw [hkeys] at hk
    rcases List.mem_append.mp hk with h | h
    · exact le_of_lt (hlow k h)
    · rcases List.mem_cons.mp h with h | h
      · rw [h]
      · have : rate query k ∈ post := by rw [← hkpost]; exact List.mem_map_of_mem _ h
        have := hpost _ this
        rw [hrating] at this
        exact this

/-- Instance on the seed store: the query `kni` is answered 200. -/
theorem fuzzy_best_match_witness :
    dictionary ≠ [] ∧ (2 ≤ jsLength "kni" ∧ jsLength "kni" ≤ 30)
      ∧ (getWord dictionary (byQuery "kni")).2.status = 200 := by
  refine ⟨by decide, by decide, ?_⟩
  obtain ⟨pre, target, post, -, h, -⟩ :=
    fuzzy_best_match dictionary "kni" (by decide) (by decide)
  rw [h]

/-- Claim C13 (code defect): with the empty configuration, `get` of each of
the three database settings throws a `TypeError`, whatever the environment
holds, because `processSplited` reads a property of the missing `database`
object.  The settings `address` and `port` are resolved as the claim says:
from the variable `MY_APP_address` or `MY_APP_port` when it has a value, else
from the defaults. -/
theorem get_database_setting_throws :
    (∀ env, get (.object []) env "database.address"
        = .error "TypeError: Cannot read property 'address' of undefined")
      ∧ (∀ env, get (.object []) env "database.port"
        = .error "TypeError: Cannot read property 'port' of undefined")
      ∧ (∀ env, get (.object []) env "database.name"
        = .error "TypeError: Cannot read property 'name' of undefined")
      ∧ get (.object []) [] "address" = .ok (.string "localhost")
      ∧ get (.object []) [] "port" = .ok (.number 3000)
      ∧ get (.object []) [("MY_APP_address", "0.0.0.0"), ("MY_APP_port", "8080")] "address"
        = .ok (.string "0.0.0.0")
      ∧ get (.object []) [("MY_APP_address", "0.0.0.0"), ("MY_APP_port", "8080")] "port"
        = .ok (.string "8080") :=
  ⟨fun _ => rfl, fun _ => rfl, fun _ => rfl, rfl, rfl, rfl, rfl⟩

/-- Claim C14 (code defect): an object without a name whose description is too
short violates both rules, yet the one violation `validate` reports is about
`description`, and Create answers 400 with that message; an object with
neither field passes validation. -/
theorem missing_name_not_reported :
    validate [("description", .string "x")] ["name", "description"]
        = ⟨some ⟨["\"description\" length must be at least 3 characters long"]⟩⟩
      ∧ postWord dictionary ⟨[], [], [("description", .string "x")]⟩
        = (dictionary, ⟨400, .text "\"description\" length must be at least 3 characters long"⟩)
      ∧ validate [] ["name", "description"] = ⟨none⟩ := by
  decide

/-- Claim C16: a handler leaves every key that maps to a non-empty description
mapped to it; hence every store reached from the seed store holds the three
seed entries with their descriptions and is not empty; and when Delete reaches
its removal step (the answer 200) the name has no non-empty description in
the store. -/
theorem stored_entries_stay (op : Operation) (store : JsObject) (request : Request) :
    (∀ k d, d ≠ "" → store.lookup k = some (.string d) →
        (handle op store request).1.lookup k = some (.string d))
      ∧ (∀ requests : List (Operation × Request),
          (run dictionary requests).lookup "knight" = some (.string "a man in armor")
            ∧ (run dictionary requests).lookup "knife" = some (.string "a piece of metal")
            ∧ (run dictionary requests).lookup "knee" = some (.string "ur knee")
            ∧ run dictionary requests ≠ []
            ∧ "knight" ∈ JsObject.keys (run dictionary requests)
            ∧ "knife" ∈ JsObject.keys (run dictionary requests)
            ∧ "knee" ∈ JsObject.keys (run dictionary requests))
      ∧ ((deleteWord store request).2.status = 200 →
          ∀ d, store.lookup (request.params.get "name").toText = some (.string d) → d = "") := by
  refine ⟨?_, ?_, ?_⟩
  · intro k d hd hk
    exact handle_keeps_truthy op store request k _ hk (by simpa [JsValue.truthy] using hd)
  · intro requests
    have h1 := run_keeps_truthy requests dictionary "knight" (.string "a man in armor")
      (by decide) (by decide)
    have h2 := run_keeps_truthy requests dictionary "knife" (.string "a piece of metal")
      (by decide) (by decide)
    have h3 := run_keeps_truthy requests dictionary "knee" (.string "ur knee")
      (by decide) (by decide)
    have hmem : ∀ k v, (run dictionary requests).lookup k = some v →
        k ∈ JsObject.keys (run dictionary requests) := by
      intro k v hk
      apply (keys_perm _).symm.subset
      generalize run dictionary requests = s at hk
      induction s with
      | nil => simp [List.lookup] at hk
      | cons p rest ih =>
        obtain ⟨k2, w⟩ := p
        by_cases h : k = k2
        · simp [h]
        · have h2 : (k == k2) = false := by simpa using h
          simp only [List.lookup, h2] at hk
          exact List.mem_cons_of_mem _ (ih hk)
    refine ⟨h1, h2, h3, ?_, hmem _ _ h1, hmem _ _ h2, hmem _ _ h3⟩
    intro hnil
    rw [hnil] at h1
    simp [List.lookup] at h1
  · intro hstatus d hd
    by_contra hne
    have htruthy : (store.get (request.params.get "name").toText).truthy = true := by
      rw [get_of_lookup _ _ _ hd]
      simpa [JsValue.truthy] using hne
    simp only [deleteWord] at hstatus
    split at hstatus
    · rename_i e he
      have := badRequest_status _ _ e he
      rw [this] at hstatus
      exact absurd hstatus (by decide)
    · simp [htruthy] at hstatus

/-- Instance on the seed store: Delete of `knight` leaves its description, and
so does a sequence of a Delete, an Update and a Create of `knight`. -/
theorem stored_entries_stay_witness :
    (handle .delete dictionary (byName "knight")).1.lookup "knight"
        = some (.string "a man in armor")
      ∧ (run dictionary
          [(.delete, byName "knight"),
           (.update, withEntry (some "knight") "knight" "a horse rider"),
           (.create, withEntry none "knight" "a chess piece")]).lookup "knight"
        = some (.string "a man in armor") :=
  ⟨(stored_entries_stay .delete dictionary (byName "knight")).1 "knight" "a man in armor"
      (by decide) (by decide),
    ((stored_entries_stay .delete dictionary (byName "knight")).2.1 _).1⟩

/-- Claim C17 (code defect): Update of the name `__proto__`, which is not a
key of the seed store, is answered 200 with a description: the prototype
object that the store inherits under that name.  The store is left as it
was. -/
theorem update_inherited_name_described :
    "__proto__" ∉ dictionary.keys
      ∧ (2 ≤ jsLength "__proto__" ∧ jsLength "__proto__" ≤ 30)
      ∧ putWord dictionary (withEntry (some "knight") "__proto__" "a prototype")
        = (dictionary,
            ⟨200, .entry (.string "__proto__") (.other true "[object Object]")⟩) := by
  decide

end Dictionary
